import Mathlib

/-!
Shallow embedding of fake_generator.py (fake transaction data generator).

Modelling conventions:
* Python floats are modelled as exact rationals; `round(x, 2)` is modelled as
  rounding to the nearest multiple of 1/100 (ties upward) and `round(x, -2)` as
  rounding to the nearest multiple of 100.
* The shared pseudo-random source (the `random` module) is modelled as a pair
  of streams, one of naturals (backing `randint`, `choice`, `choices`) and one
  of rationals (backing `uniform`), each consumed by an advancing cursor.
  `uuid.uuid4` draws from OS entropy independent of the `random` module, so
  transaction ids come from a third stream with its own cursor.
* Fallible operations (`randint` on an empty range, `choice` on an empty list,
  `strptime` on a malformed date, out-of-range indexing) return `none`,
  modelling a raised Python exception.
* Dates are (year, month, day) triples with proleptic-Gregorian arithmetic;
  date strings are produced and parsed in the zero-padded `YYYY-MM-DD` form
  that `strftime` / `strptime` use in the source.
-/

namespace FakeGen

/-- The random source: a stream of naturals (for randint/choice), a stream of
rationals (for uniform), a stream of strings for uuid4, and cursors. -/
structure RNG where
  nats : Nat → Nat
  rats : Nat → Rat
  ids : Nat → String
  i : Nat
  j : Nat

/-- Clamp a rational into [0, 1]; used to model the unit draw behind uniform. -/
def clamp01 (q : Rat) : Rat := max 0 (min 1 q)

/-- Model of random.randint(lo, hi): any integer in [lo, hi], or an error when
the range is empty (Python raises ValueError). -/
def randintI (lo hi : Int) (g : RNG) : Option (Int × RNG) :=
  if hi < lo then none
  else some (lo + (g.nats g.i : Int) % (hi - lo + 1), { g with i := g.i + 1 })

/-- Model of random.uniform(a, b) = a + (b-a) * unit draw. -/
def uniformR (a b : Rat) (g : RNG) : Rat × RNG :=
  (a + (b - a) * clamp01 (g.rats g.i), { g with i := g.i + 1 })

/-- Model of random.choice(l) (and of random.choices with weights, which only
bias the distribution, not the support): some element of l, error on []. -/
def choiceL {α : Type} (l : List α) (g : RNG) : Option (α × RNG) :=
  match l.get? (g.nats g.i % l.length) with
  | some a => some (a, { g with i := g.i + 1 })
  | none => none

/-- Model of uuid.uuid4 via str: a fresh token from the id stream (which is
independent of the `random` module state in the source). -/
def generate_transaction_id (g : RNG) : String × RNG :=
  (g.ids g.j, { g with j := g.j + 1 })

/-- Python round(x, 2): nearest multiple of 1/100 (ties rounded up here). -/
def round2 (x : Rat) : Rat := (⌊x * 100 + 1/2⌋ : Rat) / 100

/-- Python round(x, -2): nearest multiple of 100 (ties rounded up here). -/
def roundHundreds (x : Rat) : Rat := (⌊x / 100 + 1/2⌋ : Rat) * 100

/-- Zero-padded two-digit rendering, as Python {:02d}. -/
def pad2 (n : Nat) : String :=
  if n < 100 then String.mk [Nat.digitChar (n / 10), Nat.digitChar (n % 10)]
  else toString n

/-- Zero-padded four-digit rendering, as strftime %Y for years up to 9999. -/
def pad4 (n : Nat) : String :=
  if n < 10000 then
    String.mk [Nat.digitChar (n / 1000), Nat.digitChar (n / 100 % 10),
               Nat.digitChar (n / 10 % 10), Nat.digitChar (n % 10)]
  else toString n

/-- Two-decimal rendering of a rational, as Python {:.2f}. -/
def fmt2 (x : Rat) : String :=
  let n : Int := ⌊x * 100 + 1/2⌋
  let q : Int := Int.fdiv n 100
  toString q ++ "." ++ pad2 (n - q * 100).toNat

/-- Calendar date, proleptic Gregorian. -/
structure Date where
  year : Nat
  month : Nat
  day : Nat
deriving DecidableEq, Repr

/-- Gregorian leap-year rule. -/
def isLeap (y : Nat) : Bool := y % 4 = 0 && (y % 100 != 0 || y % 400 = 0)

/-- Number of days in a month. -/
def daysInMonth (y m : Nat) : Nat :=
  if m = 2 then (if isLeap y then 29 else 28)
  else if m = 4 || m = 6 || m = 9 || m = 11 then 30
  else 31

/-- A date the Python datetime type can hold (year 1..9999, valid month/day). -/
def ValidDate (d : Date) : Prop :=
  1 ≤ d.year ∧ d.year ≤ 9999 ∧ 1 ≤ d.month ∧ d.month ≤ 12 ∧
  1 ≤ d.day ∧ d.day ≤ daysInMonth d.year d.month

instance (d : Date) : Decidable (ValidDate d) := by unfold ValidDate; infer_instance

/-- Successor day, modelling timedelta(days=1) addition. -/
def nextDay (d : Date) : Date :=
  if d.day < daysInMonth d.year d.month then { d with day := d.day + 1 }
  else if d.month < 12 then { year := d.year, month := d.month + 1, day := 1 }
  else { year := d.year + 1, month := 1, day := 1 }

/-- date + timedelta(days = n). -/
def addDays (d : Date) : Nat → Date
  | 0 => d
  | n + 1 => nextDay (addDays d n)

/-- Serial day number (days since 1970-01-01), the civil-from-days algorithm;
used to model (end - start).days on datetimes. -/
def daysFromCivil (dt : Date) : Int :=
  let y : Int := if dt.month ≤ 2 then (dt.year : Int) - 1 else (dt.year : Int)
  let m : Int := dt.month
  let d : Int := dt.day
  let era : Int := Int.fdiv y 400
  let yoe : Int := y - era * 400
  let mp : Int := (m + 9) % 12
  let doy : Int := Int.fdiv (153 * mp + 2) 5 + d - 1
  let doe : Int := yoe * 365 + Int.fdiv yoe 4 - Int.fdiv yoe 100 + doy
  era * 146097 + doe - 719468

/-- Chronological comparison of dates (Python datetime order). -/
def dateLE (a b : Date) : Bool :=
  decide (a.year < b.year ∨ (a.year = b.year ∧ (a.month < b.month ∨
    (a.month = b.month ∧ a.day ≤ b.day))))

/-- strftime %Y-%m-%d. -/
def fmtDate (d : Date) : String :=
  pad4 d.year ++ "-" ++ pad2 d.month ++ "-" ++ pad2 d.day

/-- Value of a decimal digit character. -/
def digitVal (c : Char) : Option Nat :=
  if c.isDigit then some (c.toNat - 48) else none

/-- strptime(s, %Y-%m-%d) on the zero-padded form the generator itself emits:
exactly ten characters YYYY-MM-DD, with the calendar validation datetime
performs. Any other input is a parse error (none). -/
def parseYmd (s : String) : Option Date :=
  match s.toList with
  | [y1, y2, y3, y4, s1, m1, m2, s2, d1, d2] =>
    if s1 = '-' ∧ s2 = '-' then
      match digitVal y1, digitVal y2, digitVal y3, digitVal y4,
            digitVal m1, digitVal m2, digitVal d1, digitVal d2 with
      | some a, some b, some c, some d, some e, some f, some p, some q =>
        let y := a * 1000 + b * 100 + c * 10 + d
        let m := e * 10 + f
        let dd := p * 10 + q
        if ValidDate ⟨y, m, dd⟩ then some ⟨y, m, dd⟩ else none
      | _, _, _, _, _, _, _, _ => none
    else none
  | _ => none

/-- The part of a string before the first space, modelling
`if ' ' in s: s = s.split(' ')[0]` from seasonal_anomaly. -/
def beforeSpace (s : String) : String :=
  if ' ' ∈ s.toList then String.mk (s.toList.takeWhile (fun c => c ≠ ' ')) else s

/-- A transaction record: the source represents it as the 7-element list
[id, date, type, amount, account, description, vendor]. -/
structure Txn where
  id : String
  date : String
  ttype : String
  amount : Rat
  account : String
  description : String
  vendor : String
deriving DecidableEq, Repr

/-- A recurring-payment template from the configuration. -/
structure RecTemplate where
  day : Nat
  amount : Rat
  description : String
  vendor : String
deriving DecidableEq, Repr

/-- The parsed configuration object the core consumes. Dictionary lookups with
defaults in the source become total fields (absent key = default); the two
personal pools keep their absent/present distinction because the source applies
the default at the lookup site inside personal_expense. -/
structure Config where
  startDate : Date
  endDate : Date
  numTransactions : Int
  recurringTransactions : List RecTemplate
  vendors : List String
  irrCount : String → Nat
  cumEnabled : Bool
  cumCount : Nat
  cumThreshold : Rat
  personalVendors : Option (List String)
  personalDescriptions : Option (List String)

/-- An audit entry (transaction_id, irregularity_type, description). -/
abbrev Audit : Type := String × String × String

/-- Python substring test `needle in hay` on character lists. -/
def subIn (needle : List Char) : List Char → Bool
  | [] => needle.isEmpty
  | c :: rest => needle.isPrefixOf (c :: rest) || subIn needle rest

/-- Python substring test `needle in hay` on strings. -/
def strIn (needle hay : String) : Bool := subIn needle.toList hay.toList

/-- The expense types tested by `t[2] in ['Purchase', 'Payment']`. -/
def expendTypes : List String := ["Purchase", "Payment"]

/-- Signature shared by the twelve catalog rules: transactions, target index,
config, random state in; mutated transactions, description, random state out;
none models a raised exception. -/
def RuleFn : Type := List Txn → Nat → Config → RNG → Option (List Txn × String × RNG)

/-- Rule high_amount: replace amount with round(uniform(50000, 100000), 2). -/
def high_amount : RuleFn := fun txns idx _cfg g => do
  let t0 ← txns.get? idx
  let u := uniformR 50000 100000 g
  let a := round2 u.1
  some (txns.set idx { t0 with amount := a },
        "Amount increased from " ++ fmt2 t0.amount ++ " to " ++ fmt2 a, u.2)

/-- Rule frequency_change: only when some recurring-template description is a
substring of the target description, overwrite the day-of-month (chars 8..9 of
the date string) with a random day in [1, 28]. -/
def frequency_change : RuleFn := fun txns idx cfg g => do
  let t0 ← txns.get? idx
  if cfg.recurringTransactions.any (fun rt => strIn rt.description t0.description) then
    let r ← randintI 1 28 g
    let newDate := String.mk (t0.date.toList.take 8) ++ pad2 r.1.toNat
    some (txns.set idx { t0 with date := newDate },
          "Date changed from " ++ t0.date ++ " to " ++ newDate, r.2)
  else
    some (txns, "No change (not a recurring transaction)", g)

/-- Rule double_spend: copy the target, give the copy a fresh id, re-date the
copy to strptime(date) + randint(1, 60) minutes rendered %Y-%m-%d %H:%M, and
append it. A date that does not parse as %Y-%m-%d raises (none). -/
def double_spend : RuleFn := fun txns idx _cfg g => do
  let t0 ← txns.get? idx
  let fresh := generate_transaction_id g
  let d ← parseYmd t0.date
  let r ← randintI 1 60 fresh.2
  let k := r.1.toNat
  let newDate := fmtDate (addDays d (k / 1440)) ++ " " ++
    pad2 (k % 1440 / 60) ++ ":" ++ pad2 (k % 60)
  let dup : Txn := { t0 with id := fresh.1, date := newDate }
  some (txns ++ [dup],
        "Transaction duplicated with new ID " ++ dup.id ++
        " and date changed from " ++ t0.date ++ " to " ++ newDate, r.2)

/-- Rule missing_id: clear the identifier to the empty string. -/
def missing_id : RuleFn := fun txns idx _cfg g => do
  let t0 ← txns.get? idx
  some (txns.set idx { t0 with id := "" },
        "Transaction ID removed (original ID: " ++ t0.id ++ ")", g)

/-- Rule incorrect_date: replace the date by end_date + randint(1, 30) days. -/
def incorrect_date : RuleFn := fun txns idx cfg g => do
  let t0 ← txns.get? idx
  let r ← randintI 1 30 g
  let newDate := fmtDate (addDays cfg.endDate r.1.toNat)
  some (txns.set idx { t0 with date := newDate },
        "Date changed from " ++ t0.date ++ " to future date " ++ newDate, r.2)

/-- Rule mismatched_description: swap the description of Deposit/Withdrawal
transactions; other types keep theirs (the audit text still reports it). -/
def mismatched_description : RuleFn := fun txns idx _cfg g => do
  let t0 ← txns.get? idx
  let newDesc :=
    if t0.ttype = "Deposit" then "Withdrawal - Miscellaneous"
    else if t0.ttype = "Withdrawal" then "Deposit - Miscellaneous"
    else t0.description
  some (txns.set idx { t0 with description := newDesc },
        "Description changed from '" ++ t0.description ++ "' to '" ++ newDesc ++ "'", g)

/-- Rule wrong_account: replace the account with WRONG-randint(100, 999). -/
def wrong_account : RuleFn := fun txns idx _cfg g => do
  let t0 ← txns.get? idx
  let r ← randintI 100 999 g
  let newAcc := "WRONG-" ++ toString r.1.toNat
  some (txns.set idx { t0 with account := newAcc },
        "Account number changed from " ++ t0.account ++ " to " ++ newAcc, r.2)

/-- Rule personal_expense: vendor and description from the configured personal
pools (defaulted at the lookup, as in the source), amount from
round(uniform(100, 5000), 2). -/
def personal_expense : RuleFn := fun txns idx cfg g => do
  let pv := cfg.personalVendors.getD ["Personal Vendor"]
  let pd := cfg.personalDescriptions.getD ["Personal Expense"]
  let t0 ← txns.get? idx
  let v ← choiceL pv g
  let dsc ← choiceL pd v.2
  let u := uniformR 100 5000 dsc.2
  let a := round2 u.1
  some (txns.set idx { t0 with vendor := v.1, description := dsc.1, amount := a },
        "Changed to personal expense: Vendor from '" ++ t0.vendor ++ "' to '" ++ v.1 ++
        "', Description from '" ++ t0.description ++ "' to '" ++ dsc.1 ++
        "', Amount from " ++ fmt2 t0.amount ++ " to " ++ fmt2 a, u.2)

/-- Rule benford_violation: amount becomes float(first.rest) * 1000 with the
first digit drawn from {5, 6} and rest = randint(0, 999999) as six decimals. -/
def benford_violation : RuleFn := fun txns idx _cfg g => do
  let t0 ← txns.get? idx
  let c ← choiceL [5, 6] g
  let r ← randintI 0 999999 c.2
  let a : Rat := ((c.1 : Rat) + (r.1 : Rat) / 1000000) * 1000
  some (txns.set idx { t0 with amount := a },
        "Amount changed from " ++ fmt2 t0.amount ++ " to " ++ fmt2 a ++
        " (violating Benford's Law)", r.2)

/-- Rule subtle_skimming: multiply the amounts of the up-to-10 transactions at
indices [idx, min(idx+10, len)) by 0.99 and report them in one description. -/
def subtle_skimming : RuleFn := fun txns idx _cfg g =>
  let parts := (txns.enum.filter (fun p => idx ≤ p.1 ∧ p.1 < idx + 10)).map
    (fun p => "Transaction " ++ p.2.id ++ ": " ++ fmt2 p.2.amount ++
      " to " ++ fmt2 (p.2.amount * (99/100)))
  let txns' := txns.enum.map (fun p =>
    if idx ≤ p.1 ∧ p.1 < idx + 10 then { p.2 with amount := p.2.amount * (99/100) }
    else p.2)
  some (txns', "Subtle skimming applied to " ++ toString parts.length ++
    " transactions: " ++ String.intercalate ", " parts, g)

/-- Rule seasonal_anomaly: parse the date part before any time-of-day
component; in winter months (1, 2, 12) rewrite description and amount,
otherwise report no change. An unparsable date part raises (none). -/
def seasonal_anomaly : RuleFn := fun txns idx _cfg g => do
  let t0 ← txns.get? idx
  let d ← parseYmd (beforeSpace t0.date)
  if d.month = 1 ∨ d.month = 2 ∨ d.month = 12 then
    let u := uniformR 5000 10000 g
    let a := round2 u.1
    some (txns.set idx { t0 with description := "Summer Equipment Purchase", amount := a },
          "Seasonal anomaly: Description changed from '" ++ t0.description ++
          "' to 'Summer Equipment Purchase', Amount changed from " ++ fmt2 t0.amount ++
          " to " ++ fmt2 a ++ " during winter month", u.2)
  else
    some (txns, "No change (not in winter months)", g)

/-- Rule round_number_bias: round the amount to the nearest hundred. -/
def round_number_bias : RuleFn := fun txns idx _cfg g => do
  let t0 ← txns.get? idx
  let a := roundHundreds t0.amount
  some (txns.set idx { t0 with amount := a },
        "Amount rounded from " ++ fmt2 t0.amount ++ " to " ++ fmt2 a, g)

/-- Keys of the irregularity_functions dispatch dictionary, in source order. -/
def irregularityNames : List String :=
  ["high_amount", "frequency_change", "double_spend", "missing_id",
   "incorrect_date", "mismatched_description", "wrong_account",
   "personal_expense", "benford_violation", "subtle_skimming",
   "seasonal_anomaly", "round_number_bias"]

/-- The irregularity_functions dictionary: name to rule. A name outside the
dictionary is a KeyError (none). -/
def applyRule (k : String) : RuleFn :=
  match k with
  | "high_amount" => high_amount
  | "frequency_change" => frequency_change
  | "double_spend" => double_spend
  | "missing_id" => missing_id
  | "incorrect_date" => incorrect_date
  | "mismatched_description" => mismatched_description
  | "wrong_account" => wrong_account
  | "personal_expense" => personal_expense
  | "benford_violation" => benford_violation
  | "subtle_skimming" => subtle_skimming
  | "seasonal_anomaly" => seasonal_anomaly
  | "round_number_bias" => round_number_bias
  | _ => fun _ _ _ _ => none

/-- The pre-shuffle invocation multiset: each catalog rule name repeated
`count` times (lines 153-155 of the source). -/
def buildPlan (cfg : Config) : List String :=
  irregularityNames.foldr (fun n acc => List.replicate (cfg.irrCount n) n ++ acc) []

/-- One iteration of the dispatch loop (lines 161-164): draw a uniformly
random index into the current collection, run the rule there, and record
(transactions[index][0] as it stands after the call, rule name, description). -/
def dispatchOne (k : String) (txns : List Txn) (cfg : Config) (g : RNG) :
    Option (List Txn × Audit × RNG) := do
  let r ← randintI 0 ((txns.length : Int) - 1) g
  let idx := r.1.toNat
  let step ← applyRule k txns idx cfg r.2
  let t ← step.1.get? idx
  some (step.1, (t.id, k, step.2.1), step.2.2)

/-- The dispatch loop over a shuffled plan, collecting audit entries in
application order. -/
def runPlan : List String → List Txn → Config → RNG →
    Option (List Txn × List Audit × RNG)
  | [], txns, _, g => some (txns, [], g)
  | k :: rest, txns, cfg, g => do
    let s ← dispatchOne k txns cfg g
    let srest ← runPlan rest s.1 cfg s.2.2
    some (srest.1, s.2.1 :: srest.2.1, srest.2.2)

/-- apply_irregularities: build the multiset of invocations, shuffle it
(random.shuffle is modelled as an arbitrary reordering function supplied as a
parameter and constrained to a permutation in the theorems), then dispatch. -/
def apply_irregularities (shuffleFn : List String → List String)
    (txns : List Txn) (cfg : Config) (g : RNG) :
    Option (List Txn × List Audit × RNG) :=
  runPlan (shuffleFn (buildPlan cfg)) txns cfg g

/-- sum(t[3] for t in transactions if t[2] in ['Purchase', 'Payment']). -/
def totalExpenses (txns : List Txn) : Rat :=
  ((txns.filter (fun t => expendTypes.contains t.ttype)).map Txn.amount).sum

/-- The cumulative threshold: total expenses times the configured fraction. -/
def cumThresholdVal (txns : List Txn) (cfg : Config) : Rat :=
  totalExpenses txns * cfg.cumThreshold

/-- The walk of apply_cumulative_irregularity (lines 205-214): `applied` counts
entries so far, `cum` is the running increment total; the count check breaks
before touching the current transaction, the threshold check breaks after. -/
def cumAux (cfg : Config) (threshold : Rat) :
    List Txn → Nat → Rat → RNG → List Txn × List Audit × RNG
  | [], _, _, g => ([], [], g)
  | t :: rest, applied, cum, g =>
    if cfg.cumCount ≤ applied then (t :: rest, [], g)
    else if expendTypes.contains t.ttype then
      let u := uniformR 1 10 g
      let inc := round2 u.1
      let t' : Txn := { t with amount := t.amount + inc }
      let e : Audit := (t.id, "cumulative_irregularity",
        "Amount increased by " ++ fmt2 inc)
      if threshold < cum + inc then (t' :: rest, [e], u.2)
      else
        let s := cumAux cfg threshold rest (applied + 1) (cum + inc) u.2
        (t' :: s.1, e :: s.2.1, s.2.2)
    else
      let s := cumAux cfg threshold rest applied cum g
      (t :: s.1, s.2.1, s.2.2)

/-- apply_cumulative_irregularity: nothing when disabled, otherwise the bounded
walk above, against threshold = total expenses * configured fraction. -/
def apply_cumulative_irregularity (txns : List Txn) (cfg : Config) (g : RNG) :
    List Txn × List Audit × RNG :=
  if cfg.cumEnabled then
    cumAux cfg (cumThresholdVal txns cfg) txns 0 0 g
  else (txns, [], g)

/-- One day of the recurring loop: emit a Payment for every template whose day
field equals the current day-of-month, with amount = template amount *
uniform(0.95, 1.05) rounded to 2 decimals, a fresh id and a random account. -/
def emitTemplates (cur : Date) : List RecTemplate → RNG → List Txn × RNG
  | [], g => ([], g)
  | rt :: rs, g =>
    if cur.day = rt.day then
      let u := uniformR (19/20) (21/20) g
      let a := round2 (rt.amount * u.1)
      let fresh := generate_transaction_id u.2
      let acc := 1000 + fresh.2.nats fresh.2.i % 9000
      let g2 : RNG := { fresh.2 with i := fresh.2.i + 1 }
      let t : Txn := { id := fresh.1, date := fmtDate cur, ttype := "Payment",
                       amount := a, account := "ACCT-" ++ toString acc,
                       description := rt.description, vendor := rt.vendor }
      let s := emitTemplates cur rs g2
      (t :: s.1, s.2)
    else emitTemplates cur rs g

/-- The while loop of generate_recurring_transactions, on fuel that covers
every day of [start, end]. -/
def genRecurringAux (cfg : Config) : Nat → Date → RNG → List Txn × RNG
  | 0, _, g => ([], g)
  | fuel + 1, cur, g =>
    if dateLE cur cfg.endDate then
      let s := emitTemplates cur cfg.recurringTransactions g
      let srest := genRecurringAux cfg fuel (nextDay cur) s.2
      (s.1 ++ srest.1, srest.2)
    else ([], g)

/-- generate_recurring_transactions: walk every day of the configured range. -/
def generate_recurring_transactions (cfg : Config) (g : RNG) : List Txn × RNG :=
  genRecurringAux cfg
    (daysFromCivil cfg.endDate - daysFromCivil cfg.startDate + 1).toNat
    cfg.startDate g

/-- The five-member transaction type enumeration. -/
def txTypes : List String := ["Purchase", "Payment", "Transfer", "Deposit", "Withdrawal"]

/-- The four random description suffixes. -/
def descWords : List String := ["Office Supplies", "Equipment", "Services", "Miscellaneous"]

/-- benford_amount: leading digit from the weighted nine-way choice (modelled
as an arbitrary element of 1..9; the weights shape only the distribution),
then six uniform decimals, composed as leading.rest in [1, 10). -/
def benford_amount (g : RNG) : Option (Rat × RNG) := do
  let c ← choiceL [1, 2, 3, 4, 5, 6, 7, 8, 9] g
  let r ← randintI 0 999999 c.2
  some ((c.1 : Rat) + (r.1 : Rat) / 1000000, r.2)

/-- The body of the generate_random_transactions loop, iterated `n` times:
draws in source order (day offset, type, amount, account, vendor, description
word), then the fresh id taken while building the record. -/
def genRandomLoop (cfg : Config) (dateRange : Int) (vendors : List String) :
    Nat → RNG → Option (List Txn × RNG)
  | 0, g => some ([], g)
  | n + 1, g => do
    let off ← randintI 0 dateRange g
    let date := fmtDate (addDays cfg.startDate off.1.toNat)
    let ty ← choiceL txTypes off.2
    let b ← benford_amount ty.2
    let amount := round2 (b.1 * 1000)
    let acc ← randintI 1000 9999 b.2
    let v ← choiceL vendors acc.2
    let w ← choiceL descWords v.2
    let fresh := generate_transaction_id w.2
    let t : Txn := { id := fresh.1, date := date, ttype := ty.1,
                     amount := amount, account := "ACCT-" ++ toString acc.1.toNat,
                     description := ty.1 ++ " - " ++ w.1, vendor := v.1 }
    let s ← genRandomLoop cfg dateRange vendors n fresh.2
    some (t :: s.1, s.2)

/-- The number of random transactions the source computes:
num_transactions - len(recurring) * date_range // 30, with Python floor
division binding as (len * date_range) // 30. -/
def numRandomCount (cfg : Config) : Int :=
  cfg.numTransactions -
    Int.fdiv ((cfg.recurringTransactions.length : Int) *
      (daysFromCivil cfg.endDate - daysFromCivil cfg.startDate)) 30

/-- generate_random_transactions: vendor fallback, then the counted loop
(range of a non-positive count is empty). -/
def generate_random_transactions (cfg : Config) (g : RNG) :
    Option (List Txn × RNG) :=
  let vendors := if cfg.vendors.isEmpty then ["Default Vendor"] else cfg.vendors
  genRandomLoop cfg (daysFromCivil cfg.endDate - daysFromCivil cfg.startDate)
    vendors (numRandomCount cfg).toNat g

/-- Lexicographic code-point comparison of character lists: the order Python
uses to compare strings. -/
def chLE : List Char → List Char → Bool
  | [], _ => true
  | _ :: _, [] => false
  | a :: as, b :: bs =>
    if a.toNat < b.toNat then true
    else if b.toNat < a.toNat then false
    else chLE as bs

/-- Python string comparison a <= b. -/
def strLE (a b : String) : Bool := chLE a.toList b.toList

/-- The sort key order of sorted(transactions, key=lambda x: x[1]). -/
def dateOrd (a b : Txn) : Prop := strLE a.date b.date = true

instance : DecidableRel dateOrd := fun a b => by unfold dateOrd; infer_instance

/-- The final sort: sorted(transactions, key=lambda x: x[1]) is a stable sort
by the date string, modelled by a stable insertion sort. -/
def sortByDate (txns : List Txn) : List Txn :=
  txns.insertionSort dateOrd

/-- generate_transactions: recurring then random baseline, catalog pass,
cumulative pass, audit trails concatenated in that order, transactions
returned sorted by date string. -/
def generate_transactions (shuffleFn : List String → List String)
    (cfg : Config) (g : RNG) : Option (List Txn × List Audit × RNG) := do
  let rec1 := generate_recurring_transactions cfg g
  let rnd ← generate_random_transactions cfg rec1.2
  let cat ← apply_irregularities shuffleFn (rec1.1 ++ rnd.1) cfg rnd.2
  let cum := apply_cumulative_irregularity cat.1 cfg cat.2.2
  some (sortByDate cum.1, cat.2.1 ++ cum.2.1, cum.2.2)

/-! Basic lemmas about the random primitives and rounding. -/

theorem randintI_bounds {lo hi : Int} {g : RNG} {p : Int × RNG}
    (h : randintI lo hi g = some p) :
    lo ≤ p.1 ∧ p.1 ≤ hi ∧ p.2 = { g with i := g.i + 1 } := by
  unfold randintI at h
  split at h
  · exact absurd h (by simp)
  · rename_i hle
    push_neg at hle
    have hpos : 0 < hi - lo + 1 := by omega
    have h1 : 0 ≤ (g.nats g.i : Int) % (hi - lo + 1) :=
      Int.emod_nonneg _ (by omega)
    have h2 : (g.nats g.i : Int) % (hi - lo + 1) < hi - lo + 1 :=
      Int.emod_lt_of_pos _ hpos
    have heq := Option.some.inj h
    refine ⟨?_, ?_, ?_⟩
    · rw [← heq]; omega
    · rw [← heq]; omega
    · rw [← heq]

theorem randintI_none {lo hi : Int} {g : RNG} (h : hi < lo) :
    randintI lo hi g = none := by
  unfold randintI
  simp [h]

theorem clamp01_bounds (q : Rat) : 0 ≤ clamp01 q ∧ clamp01 q ≤ 1 := by
  unfold clamp01
  exact ⟨le_max_left 0 _, max_le (by norm_num) (min_le_left 1 q)⟩

theorem uniformR_bounds {a b : Rat} (h : a ≤ b) (g : RNG) :
    a ≤ (uniformR a b g).1 ∧ (uniformR a b g).1 ≤ b := by
  unfold uniformR
  obtain ⟨h0, h1⟩ := clamp01_bounds (g.rats g.i)
  constructor
  · have : 0 ≤ (b - a) * clamp01 (g.rats g.i) := mul_nonneg (by linarith) h0
    simp only
    linarith
  · have : (b - a) * clamp01 (g.rats g.i) ≤ (b - a) * 1 :=
      mul_le_mul_of_nonneg_left h1 (by linarith)
    simp only
    linarith

theorem choiceL_mem {α : Type} {l : List α} {g : RNG} {p : α × RNG}
    (h : choiceL l g = some p) : p.1 ∈ l := by
  unfold choiceL at h
  split at h
  · rename_i a hget
    have := Option.some.inj h
    rw [← this]
    exact List.get?_mem hget
  · exact absurd h (by simp)

theorem choiceL_ne_nil {α : Type} {l : List α} (hl : l ≠ []) (g : RNG) :
    choiceL l g = some (l.get ⟨g.nats g.i % l.length, by
      have : 0 < l.length := List.length_pos.mpr hl
      exact Nat.mod_lt _ this⟩, { g with i := g.i + 1 }) := by
  unfold choiceL
  rw [List.get?_eq_get]

theorem round2_ge_int (n : Int) {x : Rat} (h : (n : Rat) ≤ x) :
    (n : Rat) ≤ round2 x := by
  unfold round2
  rw [le_div_iff₀ (by norm_num)]
  have : ((n * 100 : Int) : Rat) ≤ x * 100 + 1/2 := by push_cast; linarith
  have hf := Int.le_floor.mpr this
  calc (n : Rat) * 100 = ((n * 100 : Int) : Rat) := by push_cast; ring
    _ ≤ (⌊x * 100 + 1/2⌋ : Rat) := by exact_mod_cast hf

theorem round2_le_int (n : Int) {x : Rat} (h : x ≤ (n : Rat)) :
    round2 x ≤ (n : Rat) := by
  unfold round2
  rw [div_le_iff₀ (by norm_num)]
  have hlt : x * 100 + 1/2 < ((n * 100 + 1 : Int) : Rat) := by push_cast; linarith
  have hf : ⌊x * 100 + 1/2⌋ < n * 100 + 1 := Int.floor_lt.mpr hlt
  have : (⌊x * 100 + 1/2⌋ : Rat) ≤ ((n * 100 : Int) : Rat) := by
    exact_mod_cast Int.lt_add_one_iff.mp hf
  calc (⌊x * 100 + 1/2⌋ : Rat) ≤ ((n * 100 : Int) : Rat) := this
    _ = (n : Rat) * 100 := by push_cast; ring

theorem round2_intCast (n : Int) : round2 (n : Rat) = (n : Rat) := by
  have h1 := round2_ge_int n (le_refl (n : Rat))
  have h2 := round2_le_int n (le_refl (n : Rat))
  linarith

theorem fmt2_intCast (n : Int) : fmt2 (n : Rat) = toString n ++ "." ++ "00" := by
  unfold fmt2
  have hfl : ⌊(n : Rat) * 100 + 1/2⌋ = n * 100 := by
    apply Int.floor_eq_iff.mpr
    constructor <;> push_cast <;> linarith
  simp only [hfl]
  have hq : Int.fdiv (n * 100) 100 = n := by
    rw [Int.mul_fdiv_cancel _ (by norm_num)]
  rw [hq]
  simp only [sub_self, Int.toNat_zero]
  congr 1

/-! Inversion lemmas for the dispatch loop. -/

theorem bind_some_inv {α β : Type} {x : Option α} {f : α → Option β} {b : β}
    (h : x >>= f = some b) : ∃ a, x = some a ∧ f a = some b := by
  cases x with
  | none => exact Option.noConfusion h
  | some a => exact ⟨a, rfl, h⟩

theorem dispatchOne_inv {k : String} {txns : List Txn} {cfg : Config} {g : RNG}
    {s : List Txn × Audit × RNG} (h : dispatchOne k txns cfg g = some s) :
    ∃ r step t, randintI 0 ((txns.length : Int) - 1) g = some r ∧
      applyRule k txns r.1.toNat cfg r.2 = some step ∧
      step.1.get? r.1.toNat = some t ∧
      s = (step.1, (t.id, k, step.2.1), step.2.2) := by
  unfold dispatchOne at h
  obtain ⟨r, hr, h⟩ := bind_some_inv h
  obtain ⟨step, hstep, h⟩ := bind_some_inv h
  obtain ⟨t, ht, h⟩ := bind_some_inv h
  exact ⟨r, step, t, hr, hstep, ht, (Option.some.inj h).symm⟩

theorem runPlan_inv_cons {k : String} {rest : List String} {txns : List Txn}
    {cfg : Config} {g : RNG} {s : List Txn × List Audit × RNG}
    (h : runPlan (k :: rest) txns cfg g = some s) :
    ∃ s1 s2, dispatchOne k txns cfg g = some s1 ∧
      runPlan rest s1.1 cfg s1.2.2 = some s2 ∧
      s = (s2.1, s1.2.1 :: s2.2.1, s2.2.2) := by
  unfold runPlan at h
  obtain ⟨s1, h1, h⟩ := bind_some_inv h
  obtain ⟨s2, h2, h⟩ := bind_some_inv h
  exact ⟨s1, s2, h1, h2, (Option.some.inj h).symm⟩

/-- Each loop iteration contributes exactly one audit entry, carrying the
dispatched rule name; hence entry counts mirror plan counts. -/
theorem runPlan_countP (cfg : Config) (r : String) :
    ∀ (plan : List String) (txns : List Txn) (g : RNG)
      (s : List Txn × List Audit × RNG),
      runPlan plan txns cfg g = some s →
      s.2.1.countP (fun e => e.2.1 == r) = plan.count r
  | [], txns, g, s, h => by
    unfold runPlan at h
    have := Option.some.inj h
    rw [← this]
    rfl
  | k :: rest, txns, g, s, h => by
    obtain ⟨s1, s2, h1, h2, hs⟩ := runPlan_inv_cons h
    obtain ⟨rr, step, t, _, _, _, hs1⟩ := dispatchOne_inv h1
    have ih := runPlan_countP cfg r rest s1.1 s1.2.2 s2 h2
    rw [hs]
    simp only [List.countP_cons, List.count_cons, ih]
    have : s1.2.1.2.1 = k := by rw [hs1]
    rw [this]

/-- Counting in the pre-shuffle plan: a name absent from the key list never
occurs. -/
theorem count_buildFold_not_mem (cnt : String → Nat) (r : String) :
    ∀ names : List String, r ∉ names →
      (names.foldr (fun n acc => List.replicate (cnt n) n ++ acc) []).count r = 0
  | [], _ => rfl
  | n :: ns, h => by
    simp only [List.foldr_cons, List.count_append]
    have hne : n ≠ r := fun he => h (he ▸ List.mem_cons_self n ns)
    rw [List.count_replicate, if_neg (by simpa using hne),
        count_buildFold_not_mem cnt r ns (fun hm => h (List.mem_cons_of_mem _ hm))]

/-- Counting in the pre-shuffle plan: a key occurring once in a duplicate-free
key list contributes exactly its configured count. -/
theorem count_buildFold_mem (cnt : String → Nat) (r : String) :
    ∀ names : List String, names.Nodup → r ∈ names →
      (names.foldr (fun n acc => List.replicate (cnt n) n ++ acc) []).count r = cnt r
  | [], _, hm => absurd hm (List.not_mem_nil r)
  | n :: ns, hnd, hm => by
    simp only [List.foldr_cons, List.count_append]
    rcases List.mem_cons.mp hm with he | hm2
    · subst he
      rw [List.count_replicate_self,
          count_buildFold_not_mem cnt r ns (List.nodup_cons.mp hnd).1]
      omega
    · have hne : n ≠ r := by
        intro he
        exact (List.nodup_cons.mp hnd).1 (he ▸ hm2)
      rw [List.count_replicate, if_neg (by simpa using hne),
          count_buildFold_mem cnt r ns (List.nodup_cons.mp hnd).2 hm2]
      omega

theorem irregularityNames_nodup : irregularityNames.Nodup := by decide

theorem count_buildPlan (cfg : Config) (r : String) (h : r ∈ irregularityNames) :
    (buildPlan cfg).count r = cfg.irrCount r :=
  count_buildFold_mem cfg.irrCount r irregularityNames irregularityNames_nodup h

/-- Claim C1: for an enabled catalog rule with quota k and a collection of at
least k+1 transactions, a completing catalog pass (apply_irregularities, with
random.shuffle modelled as an arbitrary permutation) emits exactly k audit
entries carrying that rule's name — subtle_skimming included, one entry per
invocation — and a rule with quota 0 emits none. -/
theorem quota_conformance (shuffleFn : List String → List String) (cfg : Config)
    (txns : List Txn) (g : RNG) (r : String)
    (hmem : r ∈ irregularityNames)
    (hperm : (shuffleFn (buildPlan cfg)).Perm (buildPlan cfg))
    (hlen : cfg.irrCount r + 1 ≤ txns.length)
    (s : List Txn × List Audit × RNG)
    (hrun : apply_irregularities shuffleFn txns cfg g = some s) :
    s.2.1.countP (fun e => e.2.1 == r) = cfg.irrCount r := by
  unfold apply_irregularities at hrun
  rw [runPlan_countP cfg r _ txns g s hrun, hperm.count_eq, count_buildPlan cfg r hmem]

/-! Concrete fixtures used by the witnesses: a deterministic random source and
small transactions/configurations. -/

def natsW : Nat → Nat := fun _ => 0

def ratsW : Nat → Rat := fun _ => 0

def idsW : Nat → String := fun n => "uuid-" ++ toString n

def gW : RNG := ⟨natsW, ratsW, idsW, 0, 0⟩

def txnW : Txn :=
  ⟨"a", "2024-06-10", "Purchase", 100, "ACCT-1000", "Purchase - Services", "Acme"⟩

def cfgW : Config :=
  { startDate := ⟨2024, 1, 15⟩, endDate := ⟨2024, 1, 15⟩, numTransactions := 1,
    recurringTransactions := [], vendors := [],
    irrCount := fun n => if n = "missing_id" then 1 else 0,
    cumEnabled := false, cumCount := 0, cumThreshold := 1/200,
    personalVendors := none, personalDescriptions := none }

def outW : List Txn × List Audit × RNG :=
  ([{ txnW with id := "" }, txnW],
   [("", "missing_id", "Transaction ID removed (original ID: a)")],
   { gW with i := 1 })

/-- C1 witness: a two-transaction collection with quota 1 on missing_id. -/
theorem quota_conformance_witness :
    "missing_id" ∈ irregularityNames ∧
    (id (buildPlan cfgW)).Perm (buildPlan cfgW) ∧
    cfgW.irrCount "missing_id" + 1 ≤ ([txnW, txnW] : List Txn).length ∧
    apply_irregularities id [txnW, txnW] cfgW gW = some outW ∧
    outW.2.1.countP (fun e => e.2.1 == "missing_id") = cfgW.irrCount "missing_id" :=
  ⟨by decide, List.Perm.refl _, by decide, by rfl,
   quota_conformance id cfgW [txnW, txnW] gW "missing_id" (by decide)
     (List.Perm.refl _) (by decide) outW (by rfl)⟩

/-! Claim C2: behaviour of both passes on an empty transaction collection. -/

/-- Claim C2 counterexample: with an empty collection and a positive
missing_id quota, the catalog pass raises (randint over an empty range)
instead of returning an empty audit trail. -/
theorem empty_collection_catalog_fails :
    apply_irregularities id [] cfgW gW = none := by rfl

theorem dispatchOne_nil (k : String) (cfg : Config) (g : RNG) :
    dispatchOne k [] cfg g = none := by
  unfold dispatchOne
  rw [show ((([] : List Txn).length : Int) - 1) = -1 by simp,
      randintI_none (by norm_num)]
  rfl

/-- Claim C2 amended: on an empty collection the cumulative pass always
no-ops and returns an empty trail without error; the catalog pass does so
exactly when every catalog quota is zero — any positive quota makes it raise
instead. -/
theorem empty_collection_amended (cfg : Config) (g : RNG)
    (shuffleFn : List String → List String)
    (hperm : (shuffleFn (buildPlan cfg)).Perm (buildPlan cfg)) :
    apply_cumulative_irregularity [] cfg g = ([], [], g) ∧
    (apply_irregularities shuffleFn [] cfg g = some ([], [], g) ↔
      buildPlan cfg = []) := by
  refine ⟨?_, ?_, ?_⟩
  · unfold apply_cumulative_irregularity
    split <;> rfl
  · intro hrun
    by_contra hne
    obtain ⟨k, rest, hk⟩ : ∃ k rest, shuffleFn (buildPlan cfg) = k :: rest := by
      rcases hs : shuffleFn (buildPlan cfg) with _ | ⟨k, rest⟩
      · exact absurd ((hs ▸ hperm).nil_eq.symm) hne
      · exact ⟨k, rest, rfl⟩
    unfold apply_irregularities at hrun
    rw [hk] at hrun
    unfold runPlan at hrun
    rw [dispatchOne_nil] at hrun
    exact Option.noConfusion hrun
  · intro hp
    have hs : shuffleFn (buildPlan cfg) = [] := by
      rw [hp] at hperm ⊢
      exact hperm.eq_nil
    unfold apply_irregularities
    rw [hs]
    rfl

/-- Claim C2 amended witness: the concrete configuration with the cumulative
rule disabled and one positive catalog quota. -/
theorem empty_collection_amended_witness :
    (id (buildPlan cfgW)).Perm (buildPlan cfgW) ∧
    apply_cumulative_irregularity [] cfgW gW = ([], [], gW) ∧
    (apply_irregularities id [] cfgW gW = some ([], [], gW) ↔
      buildPlan cfgW = []) :=
  ⟨List.Perm.refl _,
   (empty_collection_amended cfgW gW id (List.Perm.refl _)).1,
   (empty_collection_amended cfgW gW id (List.Perm.refl _)).2⟩

/-! Claim C7: the audit entry records the transaction id as mutated. -/

theorem get?_set_self {α : Type} {l : List α} {i : Nat} (h : i < l.length)
    (a : α) : (l.set i a).get? i = some a := by
  simp [List.get?_eq_getElem?, List.getElem?_set_self', h]

theorem missing_id_inv {txns : List Txn} {idx : Nat} {cfg : Config} {g : RNG}
    {step : List Txn × String × RNG} (h : missing_id txns idx cfg g = some step) :
    ∃ t0, txns.get? idx = some t0 ∧
      step = (txns.set idx { t0 with id := "" },
        "Transaction ID removed (original ID: " ++ t0.id ++ ")", g) := by
  unfold missing_id at h
  obtain ⟨t0, ht, h⟩ := bind_some_inv h
  exact ⟨t0, ht, (Option.some.inj h).symm⟩

theorem runPlan_missing_id_entries (cfg : Config) :
    ∀ (plan : List String) (txns : List Txn) (g : RNG)
      (s : List Txn × List Audit × RNG),
      runPlan plan txns cfg g = some s →
      ∀ e ∈ s.2.1, e.2.1 = "missing_id" → e.1 = ""
  | [], txns, g, s, h => by
    unfold runPlan at h
    rw [← Option.some.inj h]
    intro e he
    exact absurd he (List.not_mem_nil e)
  | k :: rest, txns, g, s, h => by
    obtain ⟨s1, s2, h1, h2, hs⟩ := runPlan_inv_cons h
    obtain ⟨r, step, t, hr, hstep, ht, hs1⟩ := dispatchOne_inv h1
    intro e he hk
    rw [hs] at he
    rcases List.mem_cons.mp he with he | he
    · subst he
      rw [hs1] at hk ⊢
      simp only at hk ⊢
      subst hk
      obtain ⟨hlo, hhi, _⟩ := randintI_bounds hr
      have hidx : r.1.toNat < txns.length := by omega
      have hstep2 : missing_id txns r.1.toNat cfg r.2 = some step := hstep
      obtain ⟨t0, _, hstepEq⟩ := missing_id_inv hstep2
      rw [hstepEq] at ht
      simp only at ht
      rw [get?_set_self (by simpa using hidx)] at ht
      rw [← Option.some.inj ht]
    · exact runPlan_missing_id_entries cfg rest s1.1 s1.2.2 s2 h2 e he hk

/-- Claim C7: every audit entry of the catalog pass records the targeted
transaction id as it stands after the rule has run; in particular every
missing_id entry carries the empty id. -/
theorem audit_records_post_mutation_id (shuffleFn : List String → List String)
    (txns : List Txn) (cfg : Config) (g : RNG)
    (s : List Txn × List Audit × RNG)
    (hrun : apply_irregularities shuffleFn txns cfg g = some s)
    (e : Audit) (he : e ∈ s.2.1) (hk : e.2.1 = "missing_id") : e.1 = "" := by
  unfold apply_irregularities at hrun
  exact runPlan_missing_id_entries cfg _ txns g s hrun e he hk

/-- Claim C7 witness: the concrete missing_id run; its audit entry shows the
empty id even though the original transaction had id a. -/
theorem audit_records_post_mutation_id_witness :
    apply_irregularities id [txnW, txnW] cfgW gW = some outW ∧
    (("", "missing_id", "Transaction ID removed (original ID: a)") : Audit) ∈
      outW.2.1 ∧
    (("", "missing_id", "Transaction ID removed (original ID: a)") : Audit).1 = "" :=
  ⟨by rfl, by decide,
   audit_records_post_mutation_id id [txnW, txnW] cfgW gW outW (by rfl) _
     (by decide) (by decide)⟩

/-! Claim C3: invariants of the cumulative pass. -/

/-- Sum of all amounts in a collection. -/
def sumAmounts (txns : List Txn) : Rat := (txns.map Txn.amount).sum

theorem sumAmounts_cons (t : Txn) (l : List Txn) :
    sumAmounts (t :: l) = t.amount + sumAmounts l := by
  unfold sumAmounts
  simp

/-- How the cumulative pass may change one transaction: untouched, or a
Purchase/Payment with its amount raised by an increment in [1, 10]. -/
def cumRel (t t' : Txn) : Prop :=
  t' = t ∨ (expendTypes.contains t.ttype = true ∧
    ∃ inc : Rat, 1 ≤ inc ∧ inc ≤ 10 ∧ t' = { t with amount := t.amount + inc })

theorem forall₂_cumRel_refl : ∀ l : List Txn, List.Forall₂ cumRel l l
  | [] => List.Forall₂.nil
  | t :: rest => List.Forall₂.cons (Or.inl rfl) (forall₂_cumRel_refl rest)

theorem countP_zip_self_ne : ∀ l : List Txn,
    ((l.zip l).countP fun p => decide ¬(p.1 = p.2)) = 0
  | [] => rfl
  | t :: rest => by
    simp only [List.zip_cons_cons, List.countP_cons, countP_zip_self_ne rest]
    simp

theorem round2_bounds_int (a b : Int) {x : Rat} (h1 : (a : Rat) ≤ x)
    (h2 : x ≤ (b : Rat)) : (a : Rat) ≤ round2 x ∧ round2 x ≤ (b : Rat) :=
  ⟨round2_ge_int a h1, round2_le_int b h2⟩

theorem cumAux_spec (cfg : Config) (threshold : Rat) :
    ∀ (txns : List Txn) (applied : Nat) (cum : Rat) (g : RNG)
      (s : List Txn × List Audit × RNG),
      cumAux cfg threshold txns applied cum g = s →
      cum ≤ threshold →
      s.1.length = txns.length ∧
      List.Forall₂ cumRel txns s.1 ∧
      s.2.1.length ≤ cfg.cumCount - applied ∧
      s.2.1.length = ((txns.zip s.1).countP fun p => decide ¬(p.1 = p.2)) ∧
      cum + (sumAmounts s.1 - sumAmounts txns) ≤ threshold + 10
  | [], applied, cum, g, s, h, hcum => by
    unfold cumAux at h
    rw [← h]
    refine ⟨rfl, List.Forall₂.nil, by simp, rfl, ?_⟩
    simp only [sumAmounts, List.map_nil, List.sum_nil, sub_self, add_zero]
    linarith
  | t :: rest, applied, cum, g, s, h, hcum => by
    unfold cumAux at h
    split at h
    · rw [← h]
      refine ⟨rfl, forall₂_cumRel_refl _, by simp, (countP_zip_self_ne _).symm, ?_⟩
      simp only [sub_self, add_zero]
      linarith
    · rename_i hcnt
      split at h
      · rename_i hpp
        dsimp only at h
        have hu := uniformR_bounds (by norm_num : (1 : Rat) ≤ 10) g
        have hinc : (1 : Rat) ≤ round2 (uniformR 1 10 g).1 ∧
            round2 (uniformR 1 10 g).1 ≤ (10 : Rat) := by
          have := round2_bounds_int 1 10 (x := (uniformR 1 10 g).1)
            (by push_cast; exact hu.1) (by push_cast; exact hu.2)
          constructor
          · have h1 := this.1; push_cast at h1; exact h1
          · have h1 := this.2; push_cast at h1; exact h1
        set inc := round2 (uniformR 1 10 g).1 with hincdef
        have hne : ({ t with amount := t.amount + inc } : Txn) ≠ t := by
          intro he
          have : t.amount + inc = t.amount := congrArg Txn.amount he
          have : inc = 0 := by linarith
          linarith [hinc.1]
        split at h
        · rename_i hover
          rw [← h]
          refine ⟨by simp, ?_, by simp; omega, ?_, ?_⟩
          · exact List.Forall₂.cons (Or.inr ⟨hpp, inc, hinc.1, hinc.2, rfl⟩)
              (forall₂_cumRel_refl rest)
          · simp only [List.zip_cons_cons, List.countP_cons, countP_zip_self_ne rest,
              decide_eq_true_eq]
            rw [if_pos (fun he => hne he.symm)]
            rfl
          · rw [sumAmounts_cons, sumAmounts_cons]
            simp only
            linarith [hinc.2]
        · rename_i hover
          push_neg at hover
          have ih := cumAux_spec cfg threshold rest (applied + 1) (cum + inc)
            (uniformR 1 10 g).2
            (cumAux cfg threshold rest (applied + 1) (cum + inc) (uniformR 1 10 g).2)
            rfl hover
          rw [← h]
          refine ⟨by simpa using ih.1, ?_, ?_, ?_, ?_⟩
          · exact List.Forall₂.cons (Or.inr ⟨hpp, inc, hinc.1, hinc.2, rfl⟩) ih.2.1
          · have := ih.2.2.1
            simp only [List.length_cons]
            omega
          · simp only [List.zip_cons_cons, List.countP_cons, List.length_cons,
              ih.2.2.2.1, decide_eq_true_eq]
            rw [if_pos (fun he => hne he.symm)]
          · have := ih.2.2.2.2
            rw [sumAmounts_cons, sumAmounts_cons]
            simp only
            linarith
      · rename_i hpp
        have ih := cumAux_spec cfg threshold rest applied cum g
          (cumAux cfg threshold rest applied cum g) rfl hcum
        rw [← h]
        refine ⟨by simpa using ih.1, List.Forall₂.cons (Or.inl rfl) ih.2.1, ?_, ?_, ?_⟩
        · simpa using ih.2.2.1
        · simp only [List.zip_cons_cons, List.countP_cons, ih.2.2.2.1]
          simp
        · have := ih.2.2.2.2
          rw [sumAmounts_cons, sumAmounts_cons]
          linarith

/-- Claim C3: with the cumulative rule enabled (and a non-negative threshold,
as holds for any collection of non-negative expense amounts), the cumulative
pass only raises Purchase/Payment amounts, each by an increment in [1, 10],
emits exactly one audit entry per mutated transaction and at most the
configured count, and its total added amount never exceeds the threshold by
more than one increment step (10). -/
theorem cumulative_bounded (txns : List Txn) (cfg : Config) (g : RNG)
    (hen : cfg.cumEnabled = true)
    (hthr : 0 ≤ cumThresholdVal txns cfg)
    (s : List Txn × List Audit × RNG)
    (h : apply_cumulative_irregularity txns cfg g = s) :
    s.1.length = txns.length ∧
    List.Forall₂ cumRel txns s.1 ∧
    s.2.1.length ≤ cfg.cumCount ∧
    s.2.1.length = ((txns.zip s.1).countP fun p => decide ¬(p.1 = p.2)) ∧
    sumAmounts s.1 - sumAmounts txns ≤ cumThresholdVal txns cfg + 10 := by
  unfold apply_cumulative_irregularity at h
  rw [if_pos hen] at h
  have := cumAux_spec cfg (cumThresholdVal txns cfg) txns 0 0 g s h hthr
  exact ⟨this.1, this.2.1, by simpa using this.2.2.1, this.2.2.2.1,
    by linarith [this.2.2.2.2]⟩

theorem benford_run_eval :
    benford_violation [txnW] 0 cfgW gW =
      some ([{ txnW with amount := 5000 }],
        "Amount changed from 100.00 to 5000.00 (violating Benford's Law)",
        { gW with i := 2 }) := by
  norm_num [benford_violation, txnW, gW, natsW, choiceL, randintI, fmt2, pad2]
  decide

def cfgC3 : Config := { cfgW with
  cumEnabled := true
  cumCount := 1
  irrCount := fun _ => 0 }

def outC3 : List Txn × List Audit × RNG :=
  ([{ txnW with amount := 101 }],
   [("a", "cumulative_irregularity", "Amount increased by 1.00")],
   { gW with i := 1 })

theorem cumulative_run_eval :
    apply_cumulative_irregularity [txnW] cfgC3 gW = outC3 := by
  norm_num [apply_cumulative_irregularity, cumAux, cfgC3, cfgW, gW, txnW, natsW,
    ratsW, uniformR, clamp01, cumThresholdVal, totalExpenses, expendTypes,
    round2, outC3, fmt2, pad2]
  decide

/-- Claim C3 witness: one Purchase of amount 100, threshold 0.5, increment 1;
the pass stops after the first mutation. -/
theorem cumulative_bounded_witness :
    cfgC3.cumEnabled = true ∧
    0 ≤ cumThresholdVal [txnW] cfgC3 ∧
    (outC3.1.length = ([txnW] : List Txn).length ∧
     List.Forall₂ cumRel [txnW] outC3.1 ∧
     outC3.2.1.length ≤ cfgC3.cumCount ∧
     outC3.2.1.length =
       ((([txnW] : List Txn).zip outC3.1).countP fun p => decide ¬(p.1 = p.2)) ∧
     sumAmounts outC3.1 - sumAmounts [txnW] ≤ cumThresholdVal [txnW] cfgC3 + 10) :=
  ⟨rfl, by norm_num [cumThresholdVal, totalExpenses, expendTypes, txnW, cfgC3, cfgW],
   cumulative_bounded [txnW] cfgC3 gW rfl
     (by norm_num [cumThresholdVal, totalExpenses, expendTypes, txnW, cfgC3, cfgW])
     outC3 cumulative_run_eval⟩

/-! Claim C8: the two conditional rules are no-ops off their trigger. -/

/-- Claim C8: two independent no-op facts about a valid target. First,
frequency_change on a transaction whose description contains no
recurring-template description leaves the collection and the random state
unchanged and reports a no-change description, whatever the transaction's
date. Second, seasonal_anomaly on a transaction whose date part parses to a
month outside January/February/December is likewise a no-op, whatever the
transaction's description. -/
theorem noop_rules (txns : List Txn) (idx : Nat) (cfg : Config) (g : RNG)
    (t : Txn) (ht : txns.get? idx = some t) :
    ((∀ rt ∈ cfg.recurringTransactions,
        strIn rt.description t.description = false) →
      frequency_change txns idx cfg g =
        some (txns, "No change (not a recurring transaction)", g)) ∧
    (∀ d : Date, parseYmd (beforeSpace t.date) = some d →
      d.month ≠ 1 → d.month ≠ 2 → d.month ≠ 12 →
      seasonal_anomaly txns idx cfg g =
        some (txns, "No change (not in winter months)", g)) := by
  constructor
  · intro hfreq
    unfold frequency_change
    rw [ht]
    have hany : cfg.recurringTransactions.any
        (fun rt => strIn rt.description t.description) = false := by
      rw [List.any_eq_false]
      intro rt hrt
      simp [hfreq rt hrt]
    simp only [Option.bind_eq_bind, Option.some_bind]
    rw [if_neg (by simp [hany])]
  · intro d hd h1 h2 h3
    unfold seasonal_anomaly
    rw [ht]
    simp only [Option.bind_eq_bind, Option.some_bind]
    rw [hd]
    simp only [Option.some_bind]
    rw [if_neg (by
      push_neg
      exact ⟨h1, h2, h3⟩)]

/-- A winter-dated, time-widened transaction matching no template: only the
frequency_change half of the no-op claim applies to it. -/
def txnJanW : Txn := { txnW with date := "2024-01-15 00:30" }

/-- A configuration with one recurring template, and a June transaction whose
description contains that template's description: only the seasonal_anomaly
half of the no-op claim applies to it. -/
def cfgT8 : Config := { cfgW with
  recurringTransactions := [⟨15, 1000, "Rent", "Landlord"⟩] }

def txnRent : Txn := { txnW with description := "Rent" }

/-- Claim C8 witness: each half discharged on an input where the other
half's condition fails - frequency_change no-ops on a winter widened-date
non-template transaction, seasonal_anomaly no-ops on a June transaction whose
description does match a template. -/
theorem noop_rules_witness :
    ([txnJanW] : List Txn).get? 0 = some txnJanW ∧
    (∀ rt ∈ cfgW.recurringTransactions,
      strIn rt.description txnJanW.description = false) ∧
    frequency_change [txnJanW] 0 cfgW gW =
      some ([txnJanW], "No change (not a recurring transaction)", gW) ∧
    ([txnRent] : List Txn).get? 0 = some txnRent ∧
    parseYmd (beforeSpace txnRent.date) = some ⟨2024, 6, 10⟩ ∧
    seasonal_anomaly [txnRent] 0 cfgT8 gW =
      some ([txnRent], "No change (not in winter months)", gW) :=
  ⟨by decide, by decide,
   (noop_rules [txnJanW] 0 cfgW gW txnJanW (by decide)).1 (by decide),
   by decide, by decide,
   (noop_rules [txnRent] 0 cfgT8 gW txnRent (by decide)).2 ⟨2024, 6, 10⟩
     (by decide) (by decide) (by decide) (by decide)⟩

/-! Claim C9: benford_violation always lands in [5000, 7000). -/

/-- Claim C9: a successful benford_violation invocation replaces the target
amount with a value in [5000, 7000) - leading digit 5 or 6 after the x1000
scaling - and changes nothing else. -/
theorem benford_violation_range (txns : List Txn) (idx : Nat) (cfg : Config)
    (g : RNG) (t0 : Txn) (ht : txns.get? idx = some t0)
    (s : List Txn × String × RNG)
    (hrun : benford_violation txns idx cfg g = some s) :
    ∃ a : Rat, 5000 ≤ a ∧ a < 7000 ∧
      s.1 = txns.set idx { t0 with amount := a } := by
  unfold benford_violation at hrun
  obtain ⟨t1, ht1, hrun⟩ := bind_some_inv hrun
  obtain ⟨c, hc, hrun⟩ := bind_some_inv hrun
  obtain ⟨r, hr, hrun⟩ := bind_some_inv hrun
  have ht0 : t1 = t0 := by
    rw [ht] at ht1
    exact (Option.some.inj ht1).symm
  subst ht0
  have hcm : c.1 ∈ ([5, 6] : List Rat) := choiceL_mem hc
  have hrb := randintI_bounds hr
  refine ⟨((c.1 : Rat) + (r.1 : Rat) / 1000000) * 1000, ?_, ?_, ?_⟩
  · have h5 : (5 : Rat) ≤ c.1 := by
      rcases List.mem_cons.mp hcm with h | h
      · rw [h] <;> norm_num
      · rcases List.mem_cons.mp h with h | h
        · rw [h] <;> norm_num
        · exact absurd h (List.not_mem_nil _)
    have hr0 : (0 : Rat) ≤ (r.1 : Rat) / 1000000 := by
      have : (0 : Rat) ≤ (r.1 : Rat) := by exact_mod_cast hrb.1
      positivity
    nlinarith
  · have h6 : c.1 ≤ 6 := by
      rcases List.mem_cons.mp hcm with h | h
      · rw [h] <;> norm_num
      · rcases List.mem_cons.mp h with h | h
        · rw [h] <;> norm_num
        · exact absurd h (List.not_mem_nil _)
    have hr1 : (r.1 : Rat) / 1000000 < 1 := by
      rw [div_lt_one (by norm_num)]
      have : r.1 ≤ 999999 := hrb.2.1
      have : (r.1 : Rat) ≤ 999999 := by exact_mod_cast this
      linarith
    nlinarith [hr1, h6]
  · rw [← Option.some.inj hrun]

/-- Claim C9 witness: the concrete run picks digit 5 and lands on 5000. -/
theorem benford_violation_range_witness :
    ([txnW] : List Txn).get? 0 = some txnW ∧
    benford_violation [txnW] 0 cfgW gW =
      some ([{ txnW with amount := 5000 }],
        "Amount changed from 100.00 to 5000.00 (violating Benford's Law)",
        { gW with i := 2 }) ∧
    (∃ a : Rat, 5000 ≤ a ∧ a < 7000 ∧
      ([{ txnW with amount := 5000 }] : List Txn) =
        ([txnW] : List Txn).set 0 { txnW with amount := a }) :=
  ⟨by decide, benford_run_eval,
   benford_violation_range [txnW] 0 cfgW gW txnW (by decide) _ benford_run_eval⟩

/-! Round-trip lemmas: the zero-padded date strings the generator emits parse
back to the same date, and splitting at the first space recovers the date part
of a widened date string. -/

theorem digitVal_digitChar {k : Nat} (h : k < 10) :
    digitVal (Nat.digitChar k) = some k := by
  interval_cases k <;> rfl

theorem digitChar_ne_space {k : Nat} (h : k < 10) : Nat.digitChar k ≠ ' ' := by
  interval_cases k <;> decide

theorem daysInMonth_le_31 (y m : Nat) : daysInMonth y m ≤ 31 := by
  unfold daysInMonth
  split
  · split <;> omega
  · split <;> omega

theorem fmtDate_toList (d : Date) (hy : d.year < 10000) (hm : d.month < 100)
    (hd : d.day < 100) :
    (fmtDate d).toList =
      [Nat.digitChar (d.year / 1000), Nat.digitChar (d.year / 100 % 10),
       Nat.digitChar (d.year / 10 % 10), Nat.digitChar (d.year % 10), '-',
       Nat.digitChar (d.month / 10), Nat.digitChar (d.month % 10), '-',
       Nat.digitChar (d.day / 10), Nat.digitChar (d.day % 10)] := by
  unfold fmtDate pad4 pad2
  rw [if_pos hy, if_pos hm, if_pos hd]
  rfl

theorem parseYmd_fmtDate (d : Date) (hv : ValidDate d) :
    parseYmd (fmtDate d) = some d := by
  obtain ⟨h1, h2, h3, h4, h5, h6⟩ := hv
  have hm100 : d.month < 100 := by omega
  have hd100 : d.day < 100 := by
    have := daysInMonth_le_31 d.year d.month
    omega
  unfold parseYmd
  rw [fmtDate_toList d (by omega) hm100 hd100]
  dsimp only
  rw [digitVal_digitChar (by omega : d.year / 1000 < 10),
      digitVal_digitChar (by omega : d.year / 100 % 10 < 10),
      digitVal_digitChar (by omega : d.year / 10 % 10 < 10),
      digitVal_digitChar (by omega : d.year % 10 < 10),
      digitVal_digitChar (by omega : d.month / 10 < 10),
      digitVal_digitChar (by omega : d.month % 10 < 10),
      digitVal_digitChar (by omega : d.day / 10 < 10),
      digitVal_digitChar (by omega : d.day % 10 < 10)]
  rw [if_pos ⟨rfl, rfl⟩]
  have hy : d.year / 1000 * 1000 + d.year / 100 % 10 * 100 +
      d.year / 10 % 10 * 10 + d.year % 10 = d.year := by omega
  have hmm : d.month / 10 * 10 + d.month % 10 = d.month := by omega
  have hdd : d.day / 10 * 10 + d.day % 10 = d.day := by omega
  simp only [hy, hmm, hdd]
  rw [if_pos ⟨h1, h2, h3, h4, h5, h6⟩]

theorem fmtDate_no_space (d : Date) (hy : d.year < 10000) (hm : d.month < 100)
    (hd : d.day < 100) : ∀ c ∈ (fmtDate d).toList, c ≠ ' ' := by
  rw [fmtDate_toList d hy hm hd]
  intro c hc
  simp only [List.mem_cons, List.not_mem_nil, or_false] at hc
  rcases hc with h | h | h | h | h | h | h | h | h | h <;> subst h <;>
    first
      | exact digitChar_ne_space (by omega)
      | decide

theorem takeWhile_until_space :
    ∀ (l1 : List Char), (∀ c ∈ l1, c ≠ ' ') → ∀ l2 : List Char,
      ((l1 ++ ' ' :: l2).takeWhile (fun c => c ≠ ' ')) = l1
  | [], _, l2 => by simp
  | c :: cs, h, l2 => by
    have hc : c ≠ ' ' := h c (List.mem_cons_self c cs)
    simp only [List.cons_append, List.takeWhile_cons]
    rw [if_pos (by simpa using hc)]
    rw [takeWhile_until_space cs (fun x hx => h x (List.mem_cons_of_mem c hx)) l2]

theorem beforeSpace_of_no_space (s : String) (h : ∀ c ∈ s.toList, c ≠ ' ') :
    beforeSpace s = s := by
  unfold beforeSpace
  rw [if_neg (fun hm => h ' ' hm rfl)]

theorem beforeSpace_append_space (s rest : String)
    (h : ∀ c ∈ s.toList, c ≠ ' ') : beforeSpace (s ++ " " ++ rest) = s := by
  unfold beforeSpace
  have hdata : (s ++ " " ++ rest).toList = s.toList ++ ' ' :: rest.toList := by
    show (s ++ " " ++ rest).data = s.data ++ ' ' :: rest.data
    rw [String.data_append, String.data_append]
    simp
  rw [if_pos (by rw [hdata]; simp)]
  rw [hdata, takeWhile_until_space s.toList h rest.toList]
  rfl

/-! Claim C10: seasonal_anomaly on widened date strings. -/

/-- Claim C10: seasonal_anomaly never faults on a date string widened with a
time-of-day component as produced by double_spend: for every target dated
YYYY-MM-DD or YYYY-MM-DD HH:MM over a valid calendar date, and every valid
index, the rule returns normally. -/
theorem seasonal_anomaly_total (txns : List Txn) (idx : Nat) (cfg : Config)
    (g : RNG) (t : Txn) (ht : txns.get? idx = some t)
    (d : Date) (hv : ValidDate d) (hh mm : Nat)
    (hdate : t.date = fmtDate d ∨
      t.date = fmtDate d ++ " " ++ pad2 hh ++ ":" ++ pad2 mm) :
    ∃ s, seasonal_anomaly txns idx cfg g = some s := by
  have hno : ∀ c ∈ (fmtDate d).toList, c ≠ ' ' := by
    obtain ⟨h1, h2, h3, h4, h5, h6⟩ := hv
    have := daysInMonth_le_31 d.year d.month
    exact fmtDate_no_space d (by omega) (by omega) (by omega)
  have hbs : beforeSpace t.date = fmtDate d := by
    rcases hdate with h | h
    · rw [h]
      exact beforeSpace_of_no_space _ hno
    · rw [h]
      rw [show fmtDate d ++ " " ++ pad2 hh ++ ":" ++ pad2 mm =
            fmtDate d ++ " " ++ (pad2 hh ++ ":" ++ pad2 mm) by
        simp [String.append_assoc]]
      exact beforeSpace_append_space _ _ hno
  unfold seasonal_anomaly
  rw [ht]
  simp only [Option.bind_eq_bind, Option.some_bind]
  rw [hbs, parseYmd_fmtDate d hv]
  simp only [Option.some_bind]
  split
  · exact ⟨_, rfl⟩
  · exact ⟨_, rfl⟩

/-- A transaction whose date has been widened by a previous double_spend. -/
def txnWid : Txn := { txnW with date := "2024-01-15 00:30" }

/-- Claim C10 witness: a widened January date. -/
theorem seasonal_anomaly_total_witness :
    ([txnWid] : List Txn).get? 0 = some txnWid ∧
    ValidDate ⟨2024, 1, 15⟩ ∧
    (txnWid.date = fmtDate ⟨2024, 1, 15⟩ ∨
      txnWid.date = fmtDate ⟨2024, 1, 15⟩ ++ " " ++ pad2 0 ++ ":" ++ pad2 30) ∧
    ∃ s, seasonal_anomaly [txnWid] 0 cfgW gW = some s :=
  ⟨by decide, by decide, by decide,
   seasonal_anomaly_total [txnWid] 0 cfgW gW txnWid (by decide) ⟨2024, 1, 15⟩
     (by decide) 0 30 (by decide)⟩

/-! Claim C5: double_spend. -/

/-- Claim C5 counterexample: double_spend on a target whose date already
carries a time-of-day component raises (strptime %Y-%m-%d fails) and appends
nothing, so one invocation does not grow the collection. -/
theorem double_spend_widened_fails :
    double_spend [txnWid] 0 cfgW gW = none := by rfl

/-- A plain-dated variant of the witness transaction. -/
def txnP : Txn := { txnW with date := "2024-01-15" }

/-- Claim C5 amended: on a target whose date is a plain YYYY-MM-DD calendar
date, double_spend appends exactly one duplicate (existing transactions
untouched), the duplicate carries the freshly drawn id - distinct from the
original id whenever the draw avoids it, as assumed of uuid4 - and the
duplicate date is the original date at midnight plus k minutes, 1 <= k <= 60,
rendered as YYYY-MM-DD HH:MM. On an already-widened date it raises instead. -/
theorem double_spend_spec (txns : List Txn) (idx : Nat) (cfg : Config)
    (g : RNG) (t : Txn) (ht : txns.get? idx = some t)
    (d : Date) (hv : ValidDate d) (hdate : t.date = fmtDate d)
    (hfresh : g.ids g.j ≠ t.id) :
    ∃ (k : Nat) (desc : String) (g' : RNG), 1 ≤ k ∧ k ≤ 60 ∧
      double_spend txns idx cfg g =
        some (txns ++ [{ t with
                         id := g.ids g.j,
                         date := fmtDate d ++ " " ++ pad2 (k / 60) ++ ":" ++
                           pad2 (k % 60) }],
          desc, g') ∧
      g.ids g.j ≠ t.id := by
  unfold double_spend
  rw [ht]
  simp only [Option.bind_eq_bind, Option.some_bind]
  unfold generate_transaction_id
  rw [hdate, parseYmd_fmtDate d hv]
  simp only [Option.some_bind]
  unfold randintI
  rw [if_neg (by norm_num)]
  simp only [Option.some_bind]
  have hmod : (0 : Int) ≤ (g.nats g.i : Int) % (60 - 1 + 1) ∧
      (g.nats g.i : Int) % (60 - 1 + 1) < 60 := by
    constructor
    · exact Int.emod_nonneg _ (by norm_num)
    · exact Int.emod_lt_of_pos _ (by norm_num)
  have hdiv : (1 + (g.nats g.i : Int) % (60 - 1 + 1)).toNat / 1440 = 0 := by
    omega
  have hm1440 : (1 + (g.nats g.i : Int) % (60 - 1 + 1)).toNat % 1440 =
      (1 + (g.nats g.i : Int) % (60 - 1 + 1)).toNat := by
    omega
  rw [hdiv, hm1440]
  exact ⟨(1 + (g.nats g.i : Int) % (60 - 1 + 1)).toNat, _, _, by omega, by omega,
    rfl, hfresh⟩

/-- Claim C5 amended witness: duplicating a plain-dated transaction with a
fresh id stream that avoids the original id. -/
theorem double_spend_spec_witness :
    ([txnP] : List Txn).get? 0 = some txnP ∧
    ValidDate ⟨2024, 1, 15⟩ ∧
    txnP.date = fmtDate ⟨2024, 1, 15⟩ ∧
    gW.ids gW.j ≠ txnP.id ∧
    (∃ (k : Nat) (desc : String) (g' : RNG), 1 ≤ k ∧ k ≤ 60 ∧
      double_spend [txnP] 0 cfgW gW =
        some ([txnP] ++ [{ txnP with
                           id := gW.ids gW.j,
                           date := fmtDate ⟨2024, 1, 15⟩ ++ " " ++
                             pad2 (k / 60) ++ ":" ++ pad2 (k % 60) }],
          desc, g') ∧
      gW.ids gW.j ≠ txnP.id) :=
  ⟨by decide, by decide, by decide, by decide,
   double_spend_spec [txnP] 0 cfgW gW txnP (by decide) ⟨2024, 1, 15⟩
     (by decide) (by decide) (by decide)⟩

/-! Claim C4: the pipeline output is sorted by the date string. -/

theorem chLE_total : ∀ a b : List Char, chLE a b = true ∨ chLE b a = true
  | [], _ => Or.inl rfl
  | _ :: _, [] => Or.inr rfl
  | a :: as, b :: bs => by
    unfold chLE
    rcases Nat.lt_trichotomy a.toNat b.toNat with h | h | h
    · left
      rw [if_pos h]
    · rw [if_neg (by omega), if_neg (by omega), if_neg (by omega),
        if_neg (by omega)]
      exact chLE_total as bs
    · right
      rw [if_pos h]

theorem chLE_trans : ∀ a b c : List Char,
    chLE a b = true → chLE b c = true → chLE a c = true
  | [], _, _, _, _ => rfl
  | _ :: _, [], _, hab, _ => by
    rw [chLE] at hab
    exact absurd hab (by simp)
  | _ :: _, _ :: _, [], _, hbc => by
    rw [chLE] at hbc
    exact absurd hbc (by simp)
  | a :: as, b :: bs, c :: cs, hab, hbc => by
    unfold chLE at hab hbc ⊢
    split at hab
    · rename_i h1
      split at hbc
      · rename_i h2
        rw [if_pos (by omega)]
      · rename_i h2
        split at hbc
        · exact absurd hbc (by simp)
        · rename_i h3
          rw [if_pos (by omega)]
    · rename_i h1
      split at hab
      · exact absurd hab (by simp)
      · rename_i h2
        split at hbc
        · rename_i h3
          rw [if_pos (by omega)]
        · rename_i h3
          split at hbc
          · exact absurd hbc (by simp)
          · rename_i h4
            rw [if_neg (by omega), if_neg (by omega)]
            exact chLE_trans as bs cs hab hbc

instance : IsTotal Txn dateOrd :=
  ⟨fun a b => chLE_total a.date.toList b.date.toList⟩

instance : IsTrans Txn dateOrd :=
  ⟨fun a b c hab hbc => chLE_trans a.date.toList b.date.toList c.date.toList
    hab hbc⟩

/-- Claim C4: whatever the configuration, random draws and applied
irregularities (including the date-mutating rules and widened dates), a
completing pipeline run returns its transaction collection non-decreasing in
the date string under lexicographic code-point comparison. -/
theorem generate_transactions_sorted (shuffleFn : List String → List String)
    (cfg : Config) (g : RNG) (out : List Txn × List Audit × RNG)
    (h : generate_transactions shuffleFn cfg g = some out) :
    List.Pairwise dateOrd out.1 := by
  unfold generate_transactions at h
  obtain ⟨rnd, hrnd, h⟩ := bind_some_inv h
  obtain ⟨cat, hcat, h⟩ := bind_some_inv h
  have hout : out.1 =
      sortByDate (apply_cumulative_irregularity cat.1 cfg cat.2.2).1 := by
    rw [← Option.some.inj h]
  rw [hout]
  exact List.sorted_insertionSort dateOrd _

/-- The single random transaction the witness run generates. -/
def txnR : Txn :=
  { id := "uuid-0", date := "2024-01-15", ttype := "Purchase", amount := 1000,
    account := "ACCT-1000", description := "Purchase - Office Supplies",
    vendor := "Default Vendor" }

theorem random_run_eval :
    generate_random_transactions cfgW gW =
      some ([txnR], ⟨natsW, ratsW, idsW, 7, 1⟩) := by
  have hdr : daysFromCivil cfgW.endDate - daysFromCivil cfgW.startDate = 0 := by
    decide
  have hN : (numRandomCount cfgW).toNat = 1 := by decide
  unfold generate_random_transactions
  rw [hdr, hN]
  norm_num [genRandomLoop, cfgW, gW, natsW, ratsW, idsW, choiceL, randintI,
    txTypes, descWords, benford_amount, generate_transaction_id, round2,
    fmtDate, addDays, pad2, pad4, txnR]
  decide

theorem pipeline_run_eval :
    generate_transactions id cfgW gW =
      some ([{ txnR with id := "" }],
        [("", "missing_id", "Transaction ID removed (original ID: uuid-0)")],
        ⟨natsW, ratsW, idsW, 8, 1⟩) := by
  unfold generate_transactions
  rw [show generate_recurring_transactions cfgW gW = ([], gW) from rfl]
  dsimp only
  rw [random_run_eval]
  simp only [Option.bind_eq_bind, Option.some_bind]
  rw [show apply_irregularities id ([] ++ [txnR]) cfgW ⟨natsW, ratsW, idsW, 7, 1⟩ =
        some ([{ txnR with id := "" }],
          [("", "missing_id", "Transaction ID removed (original ID: uuid-0)")],
          ⟨natsW, ratsW, idsW, 8, 1⟩) from rfl]
  simp only [Option.some_bind]
  rfl

/-- Claim C4 witness: the concrete one-transaction pipeline run is sorted. -/
theorem generate_transactions_sorted_witness :
    generate_transactions id cfgW gW =
      some ([{ txnR with id := "" }],
        [("", "missing_id", "Transaction ID removed (original ID: uuid-0)")],
        ⟨natsW, ratsW, idsW, 8, 1⟩) ∧
    List.Pairwise dateOrd ([{ txnR with id := "" }] : List Txn) :=
  ⟨pipeline_run_eval,
   generate_transactions_sorted id cfgW gW _ pipeline_run_eval⟩

/-! Claim C6: the random generator count and per-transaction structure. -/

theorem benford_amount_total (g : RNG) : ∃ p, benford_amount g = some p := by
  unfold benford_amount
  rw [choiceL_ne_nil (by decide : ([1, 2, 3, 4, 5, 6, 7, 8, 9] : List Rat) ≠ []) g]
  simp only [Option.bind_eq_bind, Option.some_bind]
  unfold randintI
  rw [if_neg (by norm_num)]
  exact ⟨_, rfl⟩

theorem genRandomLoop_total (cfg : Config) (dr : Int) (vendors : List String)
    (hdr : 0 ≤ dr) (hv : vendors ≠ []) :
    ∀ (n : Nat) (g : RNG), ∃ l g',
      genRandomLoop cfg dr vendors n g = some (l, g') ∧ l.length = n
  | 0, g => ⟨[], g, rfl, rfl⟩
  | n + 1, g => by
    unfold genRandomLoop
    have hoff : randintI 0 dr g =
        some (0 + (g.nats g.i : Int) % (dr - 0 + 1), { g with i := g.i + 1 }) := by
      unfold randintI
      rw [if_neg (by omega)]
    rw [hoff]
    simp only [Option.bind_eq_bind, Option.some_bind]
    rw [choiceL_ne_nil (by decide : txTypes ≠ []) _]
    simp only [Option.some_bind]
    obtain ⟨b, hb⟩ := benford_amount_total
      { { g with i := g.i + 1 } with i := { g with i := g.i + 1 }.i + 1 }
    rw [hb]
    simp only [Option.some_bind]
    have hacc : ∀ g0 : RNG, randintI 1000 9999 g0 =
        some (1000 + (g0.nats g0.i : Int) % (9999 - 1000 + 1),
          { g0 with i := g0.i + 1 }) := by
      intro g0
      unfold randintI
      rw [if_neg (by norm_num)]
    rw [hacc]
    simp only [Option.some_bind]
    rw [choiceL_ne_nil hv _]
    simp only [Option.some_bind]
    rw [choiceL_ne_nil (by decide : descWords ≠ []) _]
    simp only [Option.some_bind]
    obtain ⟨l, g2, hrun, hlen⟩ := genRandomLoop_total cfg dr vendors hdr hv n _
    rw [hrun]
    simp only [Option.some_bind]
    exact ⟨_, _, rfl, by simp [hlen]⟩

/-- The per-transaction structure of generate_random_transactions output:
type from the five-way enumeration, date = start plus an offset within the
range, amount = a Benford draw scaled by 1000 and rounded, vendor from the
effective pool. -/
def RandomTxnShape (cfg : Config) (dr : Int) (vendors : List String)
    (t : Txn) : Prop :=
  t.ttype ∈ txTypes ∧
  (∃ k : Nat, k ≤ dr.toNat ∧ t.date = fmtDate (addDays cfg.startDate k)) ∧
  (∃ c r : Rat, c ∈ ([1, 2, 3, 4, 5, 6, 7, 8, 9] : List Rat) ∧ 0 ≤ r ∧
    r ≤ 999999 ∧ t.amount = round2 ((c + r / 1000000) * 1000)) ∧
  t.vendor ∈ vendors

theorem genRandomLoop_props (cfg : Config) (dr : Int) (vendors : List String) :
    ∀ (n : Nat) (g : RNG) (l : List Txn) (g2 : RNG),
      genRandomLoop cfg dr vendors n g = some (l, g2) →
      ∀ t ∈ l, RandomTxnShape cfg dr vendors t
  | 0, g, l, g2, h => by
    unfold genRandomLoop at h
    have := Option.some.inj h
    intro t ht
    rw [show l = [] from congrArg Prod.fst this.symm] at ht
    exact absurd ht (List.not_mem_nil t)
  | n + 1, g, l, g2, h => by
    unfold genRandomLoop at h
    obtain ⟨off, hoff, h⟩ := bind_some_inv h
    obtain ⟨ty, hty, h⟩ := bind_some_inv h
    obtain ⟨b, hb, h⟩ := bind_some_inv h
    obtain ⟨acc, hacc, h⟩ := bind_some_inv h
    obtain ⟨v, hvv, h⟩ := bind_some_inv h
    obtain ⟨w, hw, h⟩ := bind_some_inv h
    obtain ⟨srest, hrest, h⟩ := bind_some_inv h
    have hpair := Option.some.inj h
    intro t ht
    rw [show l = _ :: srest.1 from congrArg Prod.fst hpair.symm] at ht
    rcases List.mem_cons.mp ht with he | he
    · subst he
      obtain ⟨hol, hoh, _⟩ := randintI_bounds hoff
      unfold benford_amount at hb
      obtain ⟨c, hc, hb⟩ := bind_some_inv hb
      obtain ⟨r, hr, hb⟩ := bind_some_inv hb
      obtain ⟨hrl, hrh, _⟩ := randintI_bounds hr
      refine ⟨choiceL_mem hty, ⟨off.1.toNat, by omega, rfl⟩, ?_, choiceL_mem hvv⟩
      refine ⟨c.1, (r.1 : Rat), choiceL_mem hc, by exact_mod_cast hrl, ?_, ?_⟩
      · have : (r.1 : Rat) ≤ ((999999 : Int) : Rat) := by exact_mod_cast hrh
        simpa using this
      · have hb1 : b.1 = c.1 + (r.1 : Rat) / 1000000 :=
          congrArg Prod.fst (Option.some.inj hb).symm
        rw [hb1]
    · exact genRandomLoop_props cfg dr vendors n _ srest.1 srest.2
        (by rw [hrest]) t he

/-- The spec sentence's arithmetic, parenthesised as written there:
target_count - template_count * (date_range_days / 30), integer division
applied inside the parentheses. -/
def specRandomCount (cfg : Config) : Int :=
  cfg.numTransactions - cfg.recurringTransactions.length *
    Int.fdiv (daysFromCivil cfg.endDate - daysFromCivil cfg.startDate) 30

/-- Claim C6 amended: with a non-negative date range, generate_random_transactions
returns exactly `num_transactions - (template_count * date_range_days) // 30`
transactions (the floor division binds over the product, unlike the spec
sentence's parenthesisation), each with the documented structure. -/
theorem generate_random_transactions_spec (cfg : Config) (g : RNG)
    (hdr : 0 ≤ daysFromCivil cfg.endDate - daysFromCivil cfg.startDate)
    (hpos : 0 < numRandomCount cfg) :
    ∃ l g2, generate_random_transactions cfg g = some (l, g2) ∧
      (l.length : Int) = numRandomCount cfg ∧
      ∀ t ∈ l, RandomTxnShape cfg
        (daysFromCivil cfg.endDate - daysFromCivil cfg.startDate)
        (if cfg.vendors.isEmpty then ["Default Vendor"] else cfg.vendors) t := by
  have hv : (if cfg.vendors.isEmpty then ["Default Vendor"] else cfg.vendors) ≠ [] := by
    split
    · simp
    · rename_i hne
      simpa [List.isEmpty_iff] using hne
  obtain ⟨l, g2, hrun, hlen⟩ := genRandomLoop_total cfg
    (daysFromCivil cfg.endDate - daysFromCivil cfg.startDate)
    (if cfg.vendors.isEmpty then ["Default Vendor"] else cfg.vendors)
    hdr hv (numRandomCount cfg).toNat g
  refine ⟨l, g2, hrun, ?_, genRandomLoop_props cfg _ _ _ g l g2 hrun⟩
  rw [hlen]
  omega

/-- The configuration separating the two formulas: 50 target transactions,
two templates, a 45-day range; the code yields 47, the spec formula 48. -/
def cfgC6 : Config := { cfgW with
  startDate := ⟨2024, 1, 1⟩
  endDate := ⟨2024, 2, 15⟩
  numTransactions := 50
  recurringTransactions := [⟨15, 1000, "Rent", "Landlord"⟩, ⟨1, 200, "Net", "ISP"⟩]
  irrCount := fun _ => 0 }

/-- Claim C6 counterexample: at cfgC6 the generator returns 47 transactions
while the claim's formula target - templates * (days / 30) evaluates to 48. -/
theorem random_count_counterexample :
    (generate_random_transactions cfgC6 gW).map (fun p => (p.1.length : Int)) =
      some 47 ∧
    specRandomCount cfgC6 = 48 := by
  constructor
  · obtain ⟨l, g2, hrun, hlen⟩ := genRandomLoop_total cfgC6
      (daysFromCivil cfgC6.endDate - daysFromCivil cfgC6.startDate)
      (if cfgC6.vendors.isEmpty then ["Default Vendor"] else cfgC6.vendors)
      (by decide) (by decide) (numRandomCount cfgC6).toNat gW
    unfold generate_random_transactions
    rw [hrun]
    have h47 : (numRandomCount cfgC6).toNat = 47 := by decide
    simp [hlen, h47]
  · decide

/-- Claim C6 amended witness: the one-transaction configuration. -/
theorem generate_random_transactions_spec_witness :
    0 ≤ daysFromCivil cfgW.endDate - daysFromCivil cfgW.startDate ∧
    0 < numRandomCount cfgW ∧
    (∃ l g2, generate_random_transactions cfgW gW = some (l, g2) ∧
      (l.length : Int) = numRandomCount cfgW ∧
      ∀ t ∈ l, RandomTxnShape cfgW
        (daysFromCivil cfgW.endDate - daysFromCivil cfgW.startDate)
        (if cfgW.vendors.isEmpty then ["Default Vendor"] else cfgW.vendors) t) :=
  ⟨by decide, by decide,
   generate_random_transactions_spec cfgW gW (by decide) (by decide)⟩

end FakeGen
